/-
Verification of the multi-threaded proxy server against its specification.

The development shallowly embeds the Go sources:
  * `internal/cache/lru.go` — the thread-safe LRU cache.  The mutex only
    serializes access, so the sequential state transformation is modelled
    directly.  The doubly linked recency list (head = most recently used,
    tail = least recently used) is modelled as the list `order` of keys read
    from head to tail; the Go `map[string]*node` is modelled as the
    association list `items` (Go map keys are unique: inserts happen only
    when the key is absent).  The node's mutable `value` field lives in
    `items`.
  * `proxy.go` — cache key generation, the 502 response, request
    serialization towards the origin, and the per-connection handler.  The
    I/O outcomes (parse result, forward result, client-write success) are
    parameters of the pure transition function.
  * `main.go` — the accept loop's error-handling decision, run over a list
    of accept outcomes.
-/
import Mathlib

namespace ProxySpec

/-- `cache.ProxyItem`: a cached HTTP response (`Status`, `Header`, `Body`).
The Go `Body []byte` is modelled as a `String` of bytes. -/
structure ProxyItem where
  status : String
  header : String
  body : String
  deriving DecidableEq, Repr

/-- `cache.LRUCache`: `size` and `capacity` are Go `int`s; `order` is the
doubly linked list of keys read from `head` (most recent) to `tail` (least
recent); `items` is the `map[string]*node` with each node's value. -/
structure LRUCache where
  size : Int
  capacity : Int
  order : List String
  items : List (String × ProxyItem)
  deriving DecidableEq, Repr

/-- Go map lookup `c.items[key]`, returning the value of the (unique) entry
for `key`. -/
def lookupKey (key : String) : List (String × ProxyItem) → Option ProxyItem
  | [] => none
  | p :: ps => if p.1 = key then some p.2 else lookupKey key ps

/-- Go `delete(c.items, key)`. -/
def eraseKey : List (String × ProxyItem) → String → List (String × ProxyItem)
  | [], _ => []
  | p :: ps, key => if p.1 = key then eraseKey ps key else p :: eraseKey ps key

/-- `existingNode.value = value`: the node reachable from the map under `key`
gets its value replaced. -/
def updateValue (items : List (String × ProxyItem)) (key : String)
    (value : ProxyItem) : List (String × ProxyItem) :=
  items.map (fun p => if p.1 = key then (key, value) else p)

/-- `removeNode`: unlink a node from the doubly linked list, following the
source's four branches — only node, head node, tail node, middle node
(the middle case splices the node out of the chain, i.e. erases its
occurrence). -/
def removeNode (order : List String) (k : String) : List String :=
  if order = [k] then []
  else if order.head? = some k then order.tail
  else if order.getLast? = some k then order.dropLast
  else order.erase k

/-- `moveToFront` on a node that is currently unlinked (`removeNode` always
runs first, or the node is freshly allocated): the node becomes the new
head; when the list was empty it becomes head and tail at once. -/
def moveToFront (order : List String) (k : String) : List String :=
  k :: order

/-- `NewLRUCache`. -/
def NewLRUCache (capacity : Int) : LRUCache :=
  { size := 0, capacity := capacity, order := [], items := [] }

/-- `evictLRU`: if the tail exists, delete its key from the map, unlink it,
and decrement `size`. -/
def evictLRU (c : LRUCache) : LRUCache :=
  match c.order.getLast? with
  | none => c
  | some k =>
      { c with items := eraseKey c.items k,
               order := removeNode c.order k,
               size := c.size - 1 }

/-- `Get`: on a hit, unlink the node and move it to the front, returning
`(true, value)`; on a miss return `(false, nil)` with no state change. -/
def Get (c : LRUCache) (key : String) : Bool × Option ProxyItem × LRUCache :=
  match lookupKey key c.items with
  | none => (false, none, c)
  | some v =>
      (true, some v, { c with order := moveToFront (removeNode c.order key) key })

/-- `Put`: update-and-refresh when the key exists; otherwise insert a new
most-recently-used node, increment `size` (the `if c.tail == nil` branch is
a no-op here: `moveToFront` on the empty list already makes the node the
tail), and evict the least recently used node when `size > capacity`. -/
def Put (c : LRUCache) (key : String) (value : ProxyItem) : LRUCache :=
  match lookupKey key c.items with
  | some _ =>
      { c with items := updateValue c.items key value,
               order := moveToFront (removeNode c.order key) key }
  | none =>
      let c1 := { c with items := (key, value) :: c.items,
                         order := moveToFront c.order key,
                         size := c.size + 1 }
      if c1.size > c1.capacity then evictLRU c1 else c1

/-- The intermediate state `c1` inside `Put`'s insert branch: node created,
added to map and list, `size` incremented, before the capacity check. -/
def insertFresh (c : LRUCache) (key : String) (value : ProxyItem) : LRUCache :=
  { c with items := (key, value) :: c.items,
           order := moveToFront c.order key,
           size := c.size + 1 }

/-- `Size`. -/
def Size (c : LRUCache) : Int := c.size

/-- `Capacity`. -/
def Capacity (c : LRUCache) : Int := c.capacity

/-- One cache operation issued by a handler. -/
inductive Op where
  | get : String → Op
  | put : String → ProxyItem → Op
  deriving DecidableEq, Repr

/-- Apply one operation to the cache (the value returned by `Get` is
discarded; only the state evolves). -/
def applyOp (c : LRUCache) : Op → LRUCache
  | .get k => (Get c k).2.2
  | .put k v => Put c k v

/-- Apply a sequence of operations left to right. -/
def applyOps (c : LRUCache) (ops : List Op) : LRUCache :=
  ops.foldl applyOp c

/-- `Put` each key of the list in order, with values given by `vals`. -/
def putAll (c : LRUCache) (vals : String → ProxyItem) (l : List String) : LRUCache :=
  l.foldl (fun c k => Put c k (vals k)) c

/-! ### proxy.go -/

/-- The fields of a parsed inbound `*http.Request` that the proxy reads:
`req.Host`, `req.URL.Path`, `req.URL.RawQuery`, `req.Method`, `req.Proto`,
`req.Header` (the `Host` header is promoted to `req.Host` by the parser and
is absent from the header map), and the body. -/
structure Request where
  host : String
  path : String
  query : String
  method : String
  proto : String
  headers : List (String × List String)
  body : String
  deriving DecidableEq, Repr

/-- The fields of an upstream `*http.Response` that the proxy reads:
`resp.Proto`, `resp.Status` (code and reason, e.g. `"200 OK"`),
`resp.Header`, and the fully read body. -/
structure Response where
  proto : String
  status : String
  headers : List (String × List String)
  body : String
  deriving DecidableEq, Repr

/-- `badGatewayBody`. -/
def badGatewayBody : String :=
  "The target server is unavailable. Please try again later."

/-- `badGatewayResponse`: the `fmt.Sprintf` with `len(badGatewayBody)`
(a byte count) spliced in as `Content-Length`. -/
def badGatewayResponse : String :=
  "HTTP/1.1 502 Bad Gateway\r\n" ++
  "Content-Type: text/plain\r\n" ++
  "Content-Length: " ++ toString badGatewayBody.utf8ByteSize ++ "\r\n" ++
  "Connection: close\r\n" ++
  "\r\n" ++ badGatewayBody

/-- `generateCacheKey`: `fmt.Sprintf("%s:%s:%s", req.Host, req.URL.Path,
req.Method)`. -/
def generateCacheKey (req : Request) : String :=
  req.host ++ ":" ++ req.path ++ ":" ++ req.method

/-- The `strings.Builder` loop writing one `Name: v1, v2\r\n` line per
header (used both when forwarding a request and when preparing a
response). -/
def headersString (hs : List (String × List String)) : String :=
  hs.foldl (fun acc p => acc ++ (p.1 ++ ": " ++ String.intercalate ", " p.2 ++ "\r\n")) ""

/-- The request bytes `forwardRequest` writes to the origin:
`requestLine + hostHeader + headers.String() + "\r\n" + string(body)`. -/
def buildForwardRequest (req : Request) : String :=
  let requestLine := req.method ++ " " ++ req.path ++ " " ++ req.proto ++ "\r\n"
  let hostHeader := "Host: " ++ req.host ++ "\r\n"
  let headers := headersString req.headers
  requestLine ++ hostHeader ++ headers ++ "\r\n" ++ req.body

/-- `prepareResponse`: status line `resp.Proto + " " + resp.Status + "\r\n"`,
the header block, and the fully read body. -/
def prepareResponse (resp : Response) : String × String × String :=
  (resp.proto ++ " " ++ resp.status ++ "\r\n", headersString resp.headers, resp.body)

/-- `cacheResponse`: store `(status, headers, body)` under `key`. -/
def cacheResponse (c : LRUCache) (key status headers body : String) : LRUCache :=
  Put c key { status := status, header := headers, body := body }

/-- `getCachedResponse`: a usable hit needs `found && item != nil`; the cache
state after the (possibly recency-refreshing) `Get` is returned alongside. -/
def getCachedResponse (c : LRUCache) (key : String) : Option ProxyItem × LRUCache :=
  let r := Get c key
  match r.1, r.2.1 with
  | true, some item => (some item, r.2.2)
  | _, _ => (none, r.2.2)

/-- The part of `handleConnection` from the cache lookup onwards, for a
successfully parsed request. -/
def handleParsed (c : LRUCache) (req : Request)
    (forward : Option Response) (writeOk : Bool) : String × LRUCache :=
  match getCachedResponse c (generateCacheKey req) with
      | (some item, c1) => (item.status ++ item.header ++ "\r\n" ++ item.body, c1)
      | (none, c1) =>
          match forward with
          | none => (badGatewayResponse, c1)
          | some resp =>
              if writeOk then
                ((prepareResponse resp).1 ++ (prepareResponse resp).2.1 ++ "\r\n"
                   ++ (prepareResponse resp).2.2,
                 cacheResponse c1 (generateCacheKey req) (prepareResponse resp).1
                   (prepareResponse resp).2.1 (prepareResponse resp).2.2)
              else
                ((prepareResponse resp).1 ++ (prepareResponse resp).2.1 ++ "\r\n"
                   ++ (prepareResponse resp).2.2, c1)

/-- `handleConnection` after admission, with the I/O outcomes as parameters:
`parsed` is the result of `http.ReadRequest` (`none` = parse failure, the
handler just returns), `forward` the result of `forwardRequest` (`none` =
forwarding error), and `writeOk` whether the `conn.Write` of the assembled
response succeeds.  Returns the bytes handed to `conn.Write` and the
resulting cache state. -/
def handleConnection (c : LRUCache) (parsed : Option Request)
    (forward : Option Response) (writeOk : Bool) : String × LRUCache :=
  match parsed with
  | none => ("", c)
  | some req => handleParsed c req forward writeOk

/-! ### main.go: the accept loop -/

/-- One iteration's outcome of `listener.Accept()`: a connection, an error
satisfying `errors.Is(err, net.ErrClosed)`, or any other error. -/
inductive AcceptEvent where
  | conn : Nat → AcceptEvent
  | errClosed : AcceptEvent
  | errOther : Nat → AcceptEvent
  deriving DecidableEq, Repr

/-- What the accept loop has done: connections dispatched to handlers,
errors logged, and whether the loop returned `nil` (clean exit). -/
structure AcceptLoopState where
  dispatched : List Nat
  logged : List Nat
  returnedNil : Bool
  deriving DecidableEq, Repr

/-- The accept loop of `Start`, run over a finite schedule of accept
outcomes: a connection is dispatched and the loop continues; `net.ErrClosed`
makes the loop return `nil` at once; any other error is logged and the loop
continues.  An exhausted schedule leaves the loop still running
(`returnedNil = false`). -/
def acceptLoop : List AcceptEvent → AcceptLoopState
  | [] => { dispatched := [], logged := [], returnedNil := false }
  | .conn i :: rest =>
      let s := acceptLoop rest
      { s with dispatched := i :: s.dispatched }
  | .errClosed :: _ =>
      { dispatched := [], logged := [], returnedNil := true }
  | .errOther i :: rest =>
      let s := acceptLoop rest
      { s with logged := i :: s.logged }

/-- The serialization format stated by the specification, transcribed from
its words: "a request line, a `Host` header, all other headers in their
original multi-value form (each value joined with `\x22, \x22` when a header
repeats), a blank line, and the fully-read request body".  Compared against
the source's `buildForwardRequest`. -/
def specForwardSerialization (req : Request) : String :=
  (req.method ++ " " ++ req.path ++ " " ++ req.proto ++ "\r\n") ++
  ("Host: " ++ req.host ++ "\r\n") ++
  String.join (req.headers.map
    (fun p => p.1 ++ ": " ++ String.intercalate ", " p.2 ++ "\r\n")) ++
  "\r\n" ++ req.body

/-- A sample cached response used to instantiate universally quantified
theorems at concrete inputs. -/
def sampleItem : ProxyItem :=
  { status := "HTTP/1.1 200 OK\r\n", header := "Content-Length: 2\r\n", body := "hi" }

/-- A second, distinct sample value. -/
def sampleItem2 : ProxyItem :=
  { status := "HTTP/1.1 200 OK\r\n", header := "Content-Length: 3\r\n", body := "bye" }

/-- A sample parsed request used to instantiate theorems. -/
def sampleRequest : Request :=
  { host := "example.test", path := "/foo", query := "", method := "GET",
    proto := "HTTP/1.1", headers := [("Accept", ["*/*"])], body := "" }

/-- A sample upstream response used to instantiate theorems. -/
def sampleResponse : Response :=
  { proto := "HTTP/1.1", status := "200 OK",
    headers := [("Content-Type", ["text/plain"])], body := "hi" }

/-- A request whose `Host` string absorbs part of the path of
`collideRequest2` once the `:`-joined cache key is formed. -/
def collideRequest1 : Request :=
  { host := "a:/b", path := "/c", query := "", method := "GET",
    proto := "HTTP/1.1", headers := [], body := "" }

/-- A request differing from `collideRequest1` in both host and path yet
yielding the same cache key. -/
def collideRequest2 : Request :=
  { host := "a", path := "/b:/c", query := "", method := "GET",
    proto := "HTTP/1.1", headers := [], body := "" }

/-- A colon-free request used to instantiate the key-derivation theorem. -/
def keyRequestA : Request :=
  { host := "example.test", path := "/foo", query := "a=1", method := "GET",
    proto := "HTTP/1.1", headers := [("X", ["1"])], body := "" }

/-- A second colon-free request, differing from `keyRequestA` in path,
method, query and headers. -/
def keyRequestB : Request :=
  { host := "example.test", path := "/bar", query := "b=2", method := "POST",
    proto := "HTTP/1.1", headers := [("Y", ["2"])], body := "" }

/-! ### Association list lemmas -/

theorem lookupKey_isSome_iff {k : String} {l : List (String × ProxyItem)} :
    (lookupKey k l).isSome ↔ ∃ p ∈ l, p.1 = k := by
  induction l with
  | nil => simp [lookupKey]
  | cons p ps ih =>
      by_cases h : p.1 = k
      · simp only [lookupKey, if_pos h, Option.isSome_some, true_iff]
        exact ⟨p, List.mem_cons_self _ _, h⟩
      · simp only [lookupKey, if_neg h, ih, List.mem_cons]
        constructor
        · rintro ⟨q, hq, hk⟩; exact ⟨q, Or.inr hq, hk⟩
        · rintro ⟨q, hq | hq, hk⟩
          · exact absurd (hq ▸ hk) h
          · exact ⟨q, hq, hk⟩

theorem lookupKey_eraseKey_self {l : List (String × ProxyItem)} {k : String} :
    lookupKey k (eraseKey l k) = none := by
  induction l with
  | nil => rfl
  | cons p ps ih =>
      by_cases h : p.1 = k <;> simp [eraseKey, lookupKey, h, ih]

theorem lookupKey_eraseKey_ne {l : List (String × ProxyItem)} {k k' : String}
    (h : k ≠ k') : lookupKey k (eraseKey l k') = lookupKey k l := by
  induction l with
  | nil => rfl
  | cons p ps ih =>
      by_cases h1 : p.1 = k'
      · have hpk : p.1 ≠ k := fun e => h (by rw [← e, h1])
        simp only [eraseKey, if_pos h1, lookupKey, if_neg hpk, ih]
      · by_cases h2 : p.1 = k
        · simp only [eraseKey, if_neg h1, lookupKey, if_pos h2]
        · simp only [eraseKey, if_neg h1, lookupKey, if_neg h2, ih]

theorem mem_eraseKey {l : List (String × ProxyItem)} {k : String}
    {p : String × ProxyItem} (h : p ∈ eraseKey l k) : p ∈ l ∧ p.1 ≠ k := by
  induction l with
  | nil => cases h
  | cons q qs ih =>
      by_cases h1 : q.1 = k
      · simp only [eraseKey, if_pos h1] at h
        exact ⟨List.mem_cons_of_mem _ (ih h).1, (ih h).2⟩
      · simp only [eraseKey, if_neg h1, List.mem_cons] at h
        rcases h with rfl | h
        · exact ⟨List.mem_cons_self _ _, h1⟩
        · exact ⟨List.mem_cons_of_mem _ (ih h).1, (ih h).2⟩

theorem lookupKey_updateValue_isSome {l : List (String × ProxyItem)}
    {a k : String} {v : ProxyItem} :
    (lookupKey a (updateValue l k v)).isSome = (lookupKey a l).isSome := by
  induction l with
  | nil => rfl
  | cons p ps ih =>
      by_cases h1 : p.1 = k
      · by_cases h2 : k = a
        · subst h2; simp [updateValue, lookupKey, h1] at ih ⊢
        · have : p.1 ≠ a := h1 ▸ h2
          simp only [updateValue, List.map_cons, if_pos h1] at ih ⊢
          simp [lookupKey, h2, this, ih]
      · by_cases h2 : p.1 = a <;>
          simp only [updateValue, List.map_cons, if_neg h1] at ih ⊢ <;>
          simp [lookupKey, h2, ih]

theorem lookupKey_updateValue_self {l : List (String × ProxyItem)}
    {k : String} {v : ProxyItem} (h : (lookupKey k l).isSome) :
    lookupKey k (updateValue l k v) = some v := by
  induction l with
  | nil => simp [lookupKey] at h
  | cons p ps ih =>
      by_cases h1 : p.1 = k
      · simp [updateValue, lookupKey, h1]
      · simp only [lookupKey, if_neg h1] at h
        have hih := ih h
        simp only [updateValue, List.map_cons, if_neg h1, lookupKey] at hih ⊢
        simp [h1, hih]

theorem mem_updateValue {l : List (String × ProxyItem)} {k : String}
    {v : ProxyItem} {p : String × ProxyItem} (h : p ∈ updateValue l k v) :
    ∃ q ∈ l, q.1 = p.1 := by
  rcases List.mem_map.1 h with ⟨q, hq, he⟩
  refine ⟨q, hq, ?_⟩
  by_cases h1 : q.1 = k
  · simp only [if_pos h1] at he; rw [← he, h1]
  · simp only [if_neg h1] at he; rw [he]

/-! ### removeNode lemmas -/

theorem erase_of_getLast {l : List String} {k : String}
    (h : l.getLast? = some k) (hn : l.Nodup) : l.erase k = l.dropLast := by
  induction l with
  | nil => simp at h
  | cons a t ih =>
      cases t with
      | nil =>
          simp only [List.getLast?_singleton, Option.some.injEq] at h
          subst h; simp
      | cons b t' =>
          have hlast : (b :: t').getLast? = some k := by
            rw [← List.getLast?_cons_cons]; exact h
          have hkmem : k ∈ b :: t' := by
            rcases List.getLast?_eq_some_iff.1 hlast with ⟨ys, hys⟩
            rw [hys]; simp
          have hna : a ∉ b :: t' := (List.nodup_cons.1 hn).1
          have hak : a ≠ k := fun e => hna (by rw [e]; exact hkmem)
          have := ih hlast (List.nodup_cons.1 hn).2
          rw [List.erase_cons_tail (by simp [hak]), this]
          rfl

theorem removeNode_of_mem {order : List String} {k : String}
    (hk : k ∈ order) (hn : order.Nodup) : removeNode order k = order.erase k := by
  unfold removeNode
  split
  · next h => subst h; simp
  · split
    · next h =>
        match order, h with
        | a :: t, h =>
            simp only [List.head?_cons, Option.some.injEq] at h
            subst h; simp
    · split
      · next h => exact (erase_of_getLast h hn).symm
      · rfl

theorem removeNode_of_getLast {order : List String} {k : String}
    (h : order.getLast? = some k) (hn : order.Nodup) :
    removeNode order k = order.dropLast := by
  have hk : k ∈ order := by
    rcases List.getLast?_eq_some_iff.1 h with ⟨ys, hys⟩
    rw [hys]; simp
  rw [removeNode_of_mem hk hn, erase_of_getLast h hn]

/-! ### Cache invariant and its preservation -/

/-- Structural soundness of a cache state: `size` counts the linked list,
the list has no duplicate keys, the list and the index hold the same key
set, and (capacity permitting) the entry count is within bounds. -/
def Inv (c : LRUCache) : Prop :=
  c.size = (c.order.length : Int) ∧
  c.order.Nodup ∧
  (∀ k ∈ c.order, (lookupKey k c.items).isSome) ∧
  (∀ p ∈ c.items, p.1 ∈ c.order) ∧
  c.size ≤ max c.capacity 0

instance (c : LRUCache) : Decidable (Inv c) := by
  unfold Inv; infer_instance

theorem inv_newLRUCache (capacity : Int) : Inv (NewLRUCache capacity) := by
  refine ⟨rfl, List.nodup_nil, ?_, ?_, ?_⟩
  · intro k hk; cases hk
  · intro p hp; cases hp
  · exact le_max_right _ _

theorem mem_order_iff_lookup {c : LRUCache} (h : Inv c) {k : String} :
    k ∈ c.order ↔ (lookupKey k c.items).isSome := by
  constructor
  · exact h.2.2.1 k
  · intro hs
    rcases lookupKey_isSome_iff.1 hs with ⟨p, hp, he⟩
    exact he ▸ h.2.2.2.1 p hp

theorem Get_eq_miss {c : LRUCache} {k : String}
    (hl : lookupKey k c.items = none) : Get c k = (false, none, c) := by
  unfold Get; rw [hl]

theorem Get_eq_hit {c : LRUCache} {k : String} {v : ProxyItem}
    (hl : lookupKey k c.items = some v) :
    Get c k = (true, some v,
      { c with order := moveToFront (removeNode c.order k) k }) := by
  unfold Get; rw [hl]

theorem Put_eq_update {c : LRUCache} {k : String} {v v0 : ProxyItem}
    (hl : lookupKey k c.items = some v0) :
    Put c k v = { c with items := updateValue c.items k v,
                         order := moveToFront (removeNode c.order k) k } := by
  unfold Put; rw [hl]

theorem Put_eq_insert {c : LRUCache} {k : String} {v : ProxyItem}
    (hl : lookupKey k c.items = none) :
    Put c k v = if c.size + 1 > c.capacity then evictLRU (insertFresh c k v)
                else insertFresh c k v := by
  unfold Put insertFresh; rw [hl]

theorem Get_fst (c : LRUCache) (k : String) :
    (Get c k).1 = (lookupKey k c.items).isSome := by
  cases hl : lookupKey k c.items with
  | none => rw [Get_eq_miss hl]; rfl
  | some v => rw [Get_eq_hit hl]; rfl

theorem Get_val (c : LRUCache) (k : String) :
    (Get c k).2.1 = lookupKey k c.items := by
  cases hl : lookupKey k c.items with
  | none => rw [Get_eq_miss hl]
  | some v => rw [Get_eq_hit hl]

theorem Get_capacity (c : LRUCache) (k : String) :
    (Get c k).2.2.capacity = c.capacity := by
  cases hl : lookupKey k c.items with
  | none => rw [Get_eq_miss hl]
  | some v => rw [Get_eq_hit hl]

theorem evictLRU_capacity (c : LRUCache) : (evictLRU c).capacity = c.capacity := by
  unfold evictLRU
  cases c.order.getLast? <;> rfl

theorem Put_capacity (c : LRUCache) (k : String) (v : ProxyItem) :
    (Put c k v).capacity = c.capacity := by
  cases hl : lookupKey k c.items with
  | none =>
      rw [Put_eq_insert hl]
      split
      · rw [evictLRU_capacity]; rfl
      · rfl
  | some v0 => rw [Put_eq_update hl]

/-- Refreshing an existing key keeps the structural invariant: the new
recency list is the old one with that key moved to the front. -/
theorem inv_refresh {c : LRUCache} (h : Inv c) {k : String}
    (hk : (lookupKey k c.items).isSome) :
    (k :: removeNode c.order k).Nodup ∧
    ((k :: removeNode c.order k).length : Int) = c.size ∧
    (∀ k' ∈ k :: removeNode c.order k, k' = k ∨ k' ∈ c.order) ∧
    (∀ k' ∈ c.order, k' ∈ k :: removeNode c.order k) := by
  have hmem : k ∈ c.order := (mem_order_iff_lookup h).2 hk
  obtain ⟨hsz, hnd, _, _, _⟩ := h
  rw [removeNode_of_mem hmem hnd]
  have hlen : (c.order.erase k).length = c.order.length - 1 :=
    List.length_erase_of_mem hmem
  have hpos : 0 < c.order.length := List.length_pos_of_mem hmem
  refine ⟨List.nodup_cons.2 ⟨hnd.not_mem_erase, hnd.erase k⟩, ?_, ?_, ?_⟩
  · rw [hsz]; simp only [List.length_cons, hlen]; omega
  · intro k' hk'
    rcases List.mem_cons.1 hk' with rfl | hk'
    · exact Or.inl rfl
    · exact Or.inr (List.mem_of_mem_erase hk')
  · intro k' hk'
    by_cases he : k' = k
    · exact he ▸ List.mem_cons_self _ _
    · exact List.mem_cons_of_mem _ ((List.mem_erase_of_ne he).2 hk')

theorem inv_Get {c : LRUCache} (h : Inv c) (k : String) : Inv (Get c k).2.2 := by
  cases hl : lookupKey k c.items with
  | none => rw [Get_eq_miss hl]; exact h
  | some v =>
      rw [Get_eq_hit hl]
      have hk : (lookupKey k c.items).isSome := by rw [hl]; rfl
      obtain ⟨hnd', hlen', hsub', hsup'⟩ := inv_refresh h hk
      obtain ⟨hsz, hnd, hlook, hidx, hcap⟩ := h
      refine ⟨hlen'.symm, hnd', ?_, ?_, hcap⟩
      · intro k' hk'
        rcases hsub' k' hk' with rfl | hk'
        · exact hk
        · exact hlook k' hk'
      · intro p hp
        exact hsup' p.1 (hidx p hp)

/-- The invariant survives eviction from the post-insert state of `Put`. -/
theorem inv_Put_evict {c : LRUCache} (h : Inv c) {k : String} {v : ProxyItem}
    (hl : lookupKey k c.items = none) :
    Inv (evictLRU (insertFresh c k v)) := by
  have hknot : k ∉ c.order := by
    intro hm
    have := (mem_order_iff_lookup h).1 hm
    rw [hl] at this; cases this
  obtain ⟨hsz, hnd, hlook, hidx, hcap⟩ := h
  have hnd1 : (moveToFront c.order k).Nodup := List.nodup_cons.2 ⟨hknot, hnd⟩
  have hlook1 : ∀ k' ∈ moveToFront c.order k,
      (lookupKey k' ((k, v) :: c.items)).isSome := by
    intro k' hk'
    rcases List.mem_cons.1 hk' with rfl | hk'
    · simp [lookupKey]
    · by_cases he : k' = k
      · simp [lookupKey, he]
      · have hne : ¬ ((k, v).1 = k') := fun e => he e.symm
        simp only [lookupKey, if_neg hne]
        exact hlook k' hk'
  have hidx1 : ∀ p ∈ (k, v) :: c.items, p.1 ∈ moveToFront c.order k := by
    intro p hp
    rcases List.mem_cons.1 hp with rfl | hp
    · exact List.mem_cons_self _ _
    · exact List.mem_cons_of_mem _ (hidx p hp)
  unfold evictLRU insertFresh
  cases hlast : (moveToFront c.order k).getLast? with
  | none =>
      rw [List.getLast?_eq_none_iff] at hlast
      cases hlast
  | some lk =>
      rcases List.getLast?_eq_some_iff.1 hlast with ⟨ys, hys⟩
      have hrm : removeNode (moveToFront c.order k) lk
          = (moveToFront c.order k).dropLast :=
        removeNode_of_getLast hlast hnd1
      have hlknot : lk ∉ ys := by
        intro hm
        rcases List.nodup_append.1 (hys ▸ hnd1) with ⟨_, _, hdisj⟩
        exact hdisj hm (List.mem_singleton_self lk)
      have hdrop : (moveToFront c.order k).dropLast = ys := by
        rw [hys, List.dropLast_concat]
      refine ⟨?_, ?_, ?_, ?_, ?_⟩
      · simp only [hrm, hdrop]
        have hlen : (moveToFront c.order k).length = ys.length + 1 := by
          rw [hys]; simp
        simp only [moveToFront, List.length_cons] at hlen
        simp only [hsz]
        omega
      · simp only [hrm, hdrop]
        exact (List.nodup_append.1 (hys ▸ hnd1)).1
      · intro k' hk'
        simp only [hrm, hdrop] at hk'
        have hne : k' ≠ lk := fun e => hlknot (e ▸ hk')
        rw [lookupKey_eraseKey_ne hne]
        exact hlook1 k' (by rw [hys]; exact List.mem_append_left _ hk')
      · intro p hp
        rcases mem_eraseKey hp with ⟨hp1, hp2⟩
        have hmem := hidx1 p hp1
        rw [hys, List.mem_append] at hmem
        rcases hmem with hm | hm
        · simp only [hrm, hdrop]; exact hm
        · exact absurd (List.mem_singleton.1 hm) hp2
      · simp only [add_sub_cancel_right]
        exact hcap

theorem inv_Put {c : LRUCache} (h : Inv c) (k : String) (v : ProxyItem) :
    Inv (Put c k v) := by
  cases hl : lookupKey k c.items with
  | some v0 =>
      rw [Put_eq_update hl]
      have hk : (lookupKey k c.items).isSome := by rw [hl]; rfl
      obtain ⟨hnd', hlen', hsub', hsup'⟩ := inv_refresh h hk
      obtain ⟨hsz, hnd, hlook, hidx, hcap⟩ := h
      refine ⟨hlen'.symm, hnd', ?_, ?_, hcap⟩
      · intro k' hk'
        rw [lookupKey_updateValue_isSome]
        rcases hsub' k' hk' with rfl | hm
        · exact hk
        · exact hlook k' hm
      · intro p hp
        rcases mem_updateValue hp with ⟨q, hq, he⟩
        exact hsup' p.1 (he ▸ hidx q hq)
  | none =>
      rw [Put_eq_insert hl]
      split
      · exact inv_Put_evict h hl
      · next hle =>
          push_neg at hle
          have hknot : k ∉ c.order := by
            intro hm
            have := (mem_order_iff_lookup h).1 hm
            rw [hl] at this; cases this
          obtain ⟨hsz, hnd, hlook, hidx, hcap⟩ := h
          refine ⟨?_, List.nodup_cons.2 ⟨hknot, hnd⟩, ?_, ?_, ?_⟩
          · simp only [insertFresh, moveToFront, List.length_cons, hsz]
            push_cast; omega
          · intro k' hk'
            rcases List.mem_cons.1 hk' with rfl | hk'
            · simp [insertFresh, lookupKey]
            · by_cases he : k' = k
              · simp [insertFresh, lookupKey, he]
              · have hne : ¬ ((k, v).1 = k') := fun e => he e.symm
                simp only [insertFresh, lookupKey, if_neg hne]
                exact hlook k' hk'
          · intro p hp
            rcases List.mem_cons.1 hp with rfl | hp
            · exact List.mem_cons_self _ _
            · exact List.mem_cons_of_mem _ (hidx p hp)
          · exact le_trans hle (le_max_left _ _)

theorem inv_applyOp {c : LRUCache} (h : Inv c) (o : Op) : Inv (applyOp c o) := by
  cases o with
  | get k => exact inv_Get h k
  | put k v => exact inv_Put h k v

theorem inv_applyOps {c : LRUCache} (h : Inv c) (ops : List Op) :
    Inv (applyOps c ops) := by
  induction ops generalizing c with
  | nil => exact h
  | cons o os ih => exact ih (inv_applyOp h o)

theorem applyOps_capacity (c : LRUCache) (ops : List Op) :
    (applyOps c ops).capacity = c.capacity := by
  induction ops generalizing c with
  | nil => rfl
  | cons o os ih =>
      have : (applyOp c o).capacity = c.capacity := by
        cases o with
        | get k => exact Get_capacity c k
        | put k v => exact Put_capacity c k v
      rw [applyOps, List.foldl_cons, ← applyOps, ih, this]

/-! ### Inserting distinct fresh keys: the shape of the recency list -/

theorem putAll_append (c : LRUCache) (vals : String → ProxyItem)
    (l : List String) (k : String) :
    putAll c vals (l ++ [k]) = Put (putAll c vals l) k (vals k) := by
  unfold putAll
  rw [List.foldl_append]
  rfl

theorem dropLast_cons_take {k : String} {R : List String} {n : Nat}
    (h : n ≤ R.length) : (k :: R.take n).dropLast = (k :: R).take n := by
  cases n with
  | zero => simp
  | succ m =>
      have hm : m < R.length := h
      have hsome : R[m]? = some R[m] := List.getElem?_eq_getElem hm
      rw [List.take_succ, hsome]
      show (k :: (R.take m ++ [R[m]])).dropLast = (k :: R).take (m + 1)
      rw [show k :: (R.take m ++ [R[m]]) = (k :: R.take m) ++ [R[m]] from rfl,
        List.dropLast_concat, List.take_succ_cons]

/-- Folding distinct fresh keys into a fresh cache of capacity `n` leaves the
recency list holding the `n` most recent keys, newest first. -/
theorem putAll_fresh (n : Nat) (vals : String → ProxyItem) (l : List String)
    (hl : l.Nodup) :
    (putAll (NewLRUCache (n : Int)) vals l).order = l.reverse.take n ∧
    Inv (putAll (NewLRUCache (n : Int)) vals l) ∧
    (putAll (NewLRUCache (n : Int)) vals l).capacity = (n : Int) := by
  induction l using List.reverseRecOn with
  | nil => exact ⟨by simp [putAll, NewLRUCache], inv_newLRUCache _, rfl⟩
  | append_singleton l' k ih =>
      obtain ⟨hord, hinv, hcap⟩ := ih ((List.nodup_append.1 hl).1)
      have hknot : k ∉ l' := by
        intro hm
        rcases List.nodup_append.1 hl with ⟨_, _, hdisj⟩
        exact hdisj hm (List.mem_singleton_self k)
      set cst := putAll (NewLRUCache (n : Int)) vals l' with hcst
      have hnotord : k ∉ cst.order := by
        rw [hord]
        intro hm
        exact hknot (List.mem_reverse.1 (List.take_subset _ _ hm))
      have hnone : lookupKey k cst.items = none := by
        rcases he : lookupKey k cst.items with _ | v
        · rfl
        · exact absurd ((mem_order_iff_lookup hinv).2 (by rw [he]; rfl)) hnotord
      have hsz : cst.size = ((l'.reverse.take n).length : Int) := by
        rw [← hord]; exact hinv.1
      rw [putAll_append, Put_eq_insert hnone]
      have hrevapp : (l' ++ [k]).reverse = k :: l'.reverse := by simp
      split
      · next hgt =>
          -- eviction fires: the number of cached keys was already `n`
          have hlen : l'.reverse.length = l'.length := List.length_reverse _
          have hge : n ≤ l'.length := by
            rw [hsz, hcap] at hgt
            simp only [List.length_take, hlen] at hgt
            omega
          have htlen : (l'.reverse.take n).length = n := by
            simp [List.length_take, hlen, Nat.min_eq_left hge]
          have hne1 : (moveToFront cst.order k) = k :: l'.reverse.take n := by
            rw [hord]; rfl
          have hinv1 : (k :: l'.reverse.take n).Nodup := by
            refine List.nodup_cons.2 ⟨?_, ?_⟩
            · intro hm
              exact hknot (List.mem_reverse.1 (List.take_subset _ _ hm))
            · exact (List.take_sublist _ _).nodup (List.nodup_reverse.2
                (List.nodup_append.1 hl).1)
          constructor
          · show (evictLRU (insertFresh cst k (vals k))).order = _
            unfold evictLRU
            cases hlast : (insertFresh cst k (vals k)).order.getLast? with
            | none =>
                rw [List.getLast?_eq_none_iff] at hlast
                have : (insertFresh cst k (vals k)).order
                    = k :: l'.reverse.take n := hne1
                rw [this] at hlast
                cases hlast
            | some lk =>
                have hio : (insertFresh cst k (vals k)).order
                    = k :: l'.reverse.take n := hne1
                simp only []
                rw [hio] at hlast ⊢
                rw [removeNode_of_getLast hlast (hio ▸ hinv1),
                  dropLast_cons_take (by rw [hlen]; exact hge), hrevapp]
          · refine ⟨inv_Put_evict hinv hnone, ?_⟩
            show (evictLRU (insertFresh cst k (vals k))).capacity = _
            rw [evictLRU_capacity]
            exact hcap
      · next hle =>
          push_neg at hle
          -- no eviction: fewer than `n` keys were cached
          have hlen : l'.reverse.length = l'.length := List.length_reverse _
          have hlt : l'.length < n := by
            rw [hsz, hcap] at hle
            simp only [List.length_take, hlen] at hle
            by_contra hc
            push_neg at hc
            rw [Nat.min_eq_left hc] at hle
            omega
          have htake : l'.reverse.take n = l'.reverse :=
            List.take_of_length_le (by omega)
          constructor
          · show (insertFresh cst k (vals k)).order = _
            show moveToFront cst.order k = _
            rw [hord, htake, hrevapp, moveToFront,
              List.take_of_length_le (by simp [hlen]; omega)]
          · refine ⟨?_, hcap⟩
            have := inv_Put hinv k (vals k)
            rw [Put_eq_insert hnone] at this
            rw [if_neg (by push_neg; exact hle)] at this
            exact this

/-! ### String builder lemmas -/

theorem foldl_append_shift (l : List String) (s : String) :
    l.foldl (fun r t => r ++ t) s = s ++ l.foldl (fun r t => r ++ t) "" := by
  induction l generalizing s with
  | nil => simp [List.foldl_nil]
  | cons a t ih =>
      simp only [List.foldl_cons]
      rw [ih (s ++ a), ih ("" ++ a), String.empty_append, String.append_assoc]

theorem join_cons (a : String) (l : List String) :
    String.join (a :: l) = a ++ String.join l := by
  show l.foldl (fun r t => r ++ t) ("" ++ a) = a ++ l.foldl (fun r t => r ++ t) ""
  rw [String.empty_append, foldl_append_shift]

theorem foldl_build {α : Type} (f : α → String) (l : List α) (s : String) :
    l.foldl (fun acc x => acc ++ f x) s = s ++ String.join (l.map f) := by
  induction l generalizing s with
  | nil => show s = s ++ String.join []; rw [String.join, List.foldl_nil, String.append_empty]
  | cons a t ih =>
      show t.foldl _ (s ++ f a) = s ++ String.join (f a :: t.map f)
      rw [ih, join_cons, String.append_assoc]

theorem headersString_eq_join (hs : List (String × List String)) :
    headersString hs
      = String.join (hs.map (fun p => p.1 ++ ": " ++ String.intercalate ", " p.2 ++ "\r\n")) := by
  show hs.foldl _ "" = _
  rw [foldl_build (fun p => p.1 ++ ": " ++ String.intercalate ", " p.2 ++ "\r\n") hs ""]
  rw [String.empty_append]

/-! ### Uniqueness of the suffix after a separator-free tail -/

theorem sep_split {c : Char} : ∀ {x y a b : List Char}, c ∉ a → c ∉ b →
    x ++ c :: a = y ++ c :: b → x = y ∧ a = b := by
  intro x
  induction x with
  | nil =>
      intro y a b ha hb h
      cases y with
      | nil => simpa using h
      | cons d y' =>
          simp only [List.nil_append, List.cons_append, List.cons.injEq] at h
          obtain ⟨he, h2⟩ := h
          have hmem : c ∈ a := by
            rw [h2]
            exact List.mem_append_right _ (List.mem_cons_self _ _)
          exact absurd hmem ha
  | cons d x' ih =>
      intro y a b ha hb h
      cases y with
      | nil =>
          simp only [List.nil_append, List.cons_append, List.cons.injEq] at h
          obtain ⟨he, h2⟩ := h
          have hmem : c ∈ b := by
            rw [← h2]
            exact List.mem_append_right _ (List.mem_cons_self _ _)
          exact absurd hmem hb
      | cons e y' =>
          simp only [List.cons_append, List.cons.injEq] at h
          obtain ⟨rfl, h2⟩ := h
          obtain ⟨h3, h4⟩ := ih ha hb h2
          exact ⟨by rw [h3], h4⟩

theorem generateCacheKey_data (r : Request) :
    (generateCacheKey r).data
      = r.host.data ++ ':' :: (r.path.data ++ ':' :: r.method.data) := by
  show (r.host ++ ":" ++ r.path ++ ":" ++ r.method).data = _
  simp [String.data_append]

theorem generateCacheKey_inj {r1 r2 : Request}
    (hp1 : ':' ∉ r1.path.data) (hp2 : ':' ∉ r2.path.data)
    (hm1 : ':' ∉ r1.method.data) (hm2 : ':' ∉ r2.method.data)
    (h : generateCacheKey r1 = generateCacheKey r2) :
    r1.host = r2.host ∧ r1.path = r2.path ∧ r1.method = r2.method := by
  have hd := congrArg String.data h
  rw [generateCacheKey_data, generateCacheKey_data] at hd
  rw [show r1.host.data ++ ':' :: (r1.path.data ++ ':' :: r1.method.data)
      = (r1.host.data ++ ':' :: r1.path.data) ++ ':' :: r1.method.data by simp,
    show r2.host.data ++ ':' :: (r2.path.data ++ ':' :: r2.method.data)
      = (r2.host.data ++ ':' :: r2.path.data) ++ ':' :: r2.method.data by simp] at hd
  obtain ⟨hhp, hm⟩ := sep_split hm1 hm2 hd
  obtain ⟨hh, hp⟩ := sep_split hp1 hp2 hhp
  exact ⟨String.ext hh, String.ext hp, String.ext hm⟩

/-! ### Handler equations -/

theorem getCachedResponse_miss {c : LRUCache} {key : String}
    (hl : lookupKey key c.items = none) :
    getCachedResponse c key = (none, c) := by
  unfold getCachedResponse
  rw [Get_eq_miss hl]

theorem handleConnection_forward_fail {c : LRUCache} {req : Request}
    {writeOk : Bool} (hmiss : lookupKey (generateCacheKey req) c.items = none) :
    handleConnection c (some req) none writeOk = (badGatewayResponse, c) := by
  show handleParsed c req none writeOk = _
  unfold handleParsed
  rw [getCachedResponse_miss hmiss]

theorem handleConnection_forward_ok {c : LRUCache} {req : Request}
    {resp : Response} {writeOk : Bool}
    (hmiss : lookupKey (generateCacheKey req) c.items = none) :
    handleConnection c (some req) (some resp) writeOk
      = ((prepareResponse resp).1 ++ (prepareResponse resp).2.1 ++ "\r\n"
          ++ (prepareResponse resp).2.2,
         if writeOk then
           cacheResponse c (generateCacheKey req) (prepareResponse resp).1
             (prepareResponse resp).2.1 (prepareResponse resp).2.2
         else c) := by
  show handleParsed c req (some resp) writeOk = _
  unfold handleParsed
  rw [getCachedResponse_miss hmiss]
  cases writeOk <;> rfl

/-- After `Put c K V` on a well-formed cache with positive capacity, the
index maps `K` to `V`: an update rewrites the entry in place, and an insert
never evicts the key it just inserted (the evicted tail is an older key). -/
theorem lookupKey_put_self {c : LRUCache} (h : Inv c) (hcap : 1 ≤ c.capacity)
    (K : String) (V : ProxyItem) :
    lookupKey K (Put c K V).items = some V := by
  cases hl : lookupKey K c.items with
  | some v0 =>
      rw [Put_eq_update hl]
      exact lookupKey_updateValue_self (by rw [hl]; rfl)
  | none =>
      rw [Put_eq_insert hl]
      split
      · next hgt =>
          have hknot : K ∉ c.order := by
            intro hm
            have := (mem_order_iff_lookup h).1 hm
            rw [hl] at this; cases this
          have hone : c.order ≠ [] := by
            intro he
            have hsz := h.1
            rw [he] at hsz
            simp only [List.length_nil, Nat.cast_zero] at hsz
            rw [hsz] at hgt
            omega
          unfold evictLRU insertFresh
          cases hlast : (moveToFront c.order K).getLast? with
          | none => rw [List.getLast?_eq_none_iff] at hlast; cases hlast
          | some lk =>
              have hlk : lk ∈ c.order := by
                rcases List.getLast?_eq_some_iff.1 hlast with ⟨ys, hys⟩
                cases ys with
                | nil =>
                    simp only [moveToFront, List.nil_append] at hys
                    have hnil : c.order = [] := by
                      have := congrArg List.tail hys
                      simpa using this
                    exact absurd hnil hone
                | cons y ys' =>
                    simp only [moveToFront, List.cons_append,
                      List.cons.injEq] at hys
                    rw [hys.2]
                    exact List.mem_append_right _ (List.mem_singleton_self lk)
              have hKlk : K ≠ lk := fun e => hknot (e ▸ hlk)
              show lookupKey K (eraseKey ((K, V) :: c.items) lk) = some V
              rw [lookupKey_eraseKey_ne hKlk]
              simp [lookupKey]
      · show lookupKey K (insertFresh c K V).items = some V
        simp [insertFresh, lookupKey]

/-! ## The claims -/

/-- C1, as stated, is false for negative capacities: with capacity `-1` a
single `Put` leaves `Size() = 0`, which is not `≤ Capacity() = -1` (the Put
does not stick, but the size cannot go below zero while the capacity is
negative). -/
theorem C1_counterexample :
    ¬ (Size (applyOps (NewLRUCache (-1)) [Op.put "k" sampleItem])
        ≤ Capacity (applyOps (NewLRUCache (-1)) [Op.put "k" sampleItem])) := by
  decide

/-- C1 (amended): for every capacity fixed at construction and any sequence
of cache operations (in particular any sequence of Puts), after each
operation `Size() ≤ max (Capacity(), 0)`; for nonnegative capacities this is
exactly `Size() ≤ Capacity()`, and for negative capacities the cache stays
empty even though `Size() > Capacity()`. -/
theorem C1_capacity_invariant (cap : Int) (ops : List Op) :
    Size (applyOps (NewLRUCache cap) ops)
      ≤ max (Capacity (applyOps (NewLRUCache cap) ops)) 0 :=
  (inv_applyOps (inv_newLRUCache cap) ops).2.2.2.2

/-- C2: with capacity `N = t.length`, inserting the `N+1` distinct keys
`k1 :: t` in order leaves `Get k1` missing and every key of `t` hitting;
and with capacity 2 and keys A, B inserted in that order, a `Get A`
followed by `Put C` evicts B, not A. -/
theorem C2_lru_order (k1 : String) (t : List String) (vals : String → ProxyItem)
    (hnd : (k1 :: t).Nodup) :
    ((Get (putAll (NewLRUCache (t.length : Int)) vals (k1 :: t)) k1).1 = false ∧
      ∀ k ∈ t, (Get (putAll (NewLRUCache (t.length : Int)) vals (k1 :: t)) k).1 = true) ∧
    ((Get (Put ((Get (Put (Put (NewLRUCache 2) "A" sampleItem) "B" sampleItem) "A").2.2)
        "C" sampleItem) "B").1 = false ∧
     (Get (Put ((Get (Put (Put (NewLRUCache 2) "A" sampleItem) "B" sampleItem) "A").2.2)
        "C" sampleItem) "A").1 = true ∧
     (Get (Put ((Get (Put (Put (NewLRUCache 2) "A" sampleItem) "B" sampleItem) "A").2.2)
        "C" sampleItem) "C").1 = true) := by
  constructor
  · obtain ⟨hord, hinv, hcap⟩ := putAll_fresh t.length vals (k1 :: t) hnd
    have hord' : (putAll (NewLRUCache (t.length : Int)) vals (k1 :: t)).order
        = t.reverse := by
      rw [hord, show (k1 :: t).reverse = t.reverse ++ [k1] by simp]
      exact List.take_left' (List.length_reverse t)
    constructor
    · rw [Get_fst]
      have hk1 : k1 ∉ t := (List.nodup_cons.1 hnd).1
      have hnot : ¬ (lookupKey k1
          (putAll (NewLRUCache (t.length : Int)) vals (k1 :: t)).items).isSome := by
        intro hs
        have hm := (mem_order_iff_lookup hinv).2 hs
        rw [hord'] at hm
        exact hk1 (List.mem_reverse.1 hm)
      simpa using hnot
    · intro k hk
      rw [Get_fst]
      exact (mem_order_iff_lookup hinv).1 (by rw [hord']; exact List.mem_reverse.2 hk)
  · exact ⟨by decide, by decide, by decide⟩

/-- Witness for C2 at `N = 2`, keys x1, x2, x3. -/
theorem C2_lru_order_witness :
    ("x1" :: ["x2", "x3"]).Nodup ∧
    (((Get (putAll (NewLRUCache ((["x2", "x3"] : List String).length : Int))
          (fun _ => sampleItem) ("x1" :: ["x2", "x3"])) "x1").1 = false ∧
      ∀ k ∈ ["x2", "x3"],
        (Get (putAll (NewLRUCache ((["x2", "x3"] : List String).length : Int))
          (fun _ => sampleItem) ("x1" :: ["x2", "x3"])) k).1 = true) ∧
    ((Get (Put ((Get (Put (Put (NewLRUCache 2) "A" sampleItem) "B" sampleItem) "A").2.2)
        "C" sampleItem) "B").1 = false ∧
     (Get (Put ((Get (Put (Put (NewLRUCache 2) "A" sampleItem) "B" sampleItem) "A").2.2)
        "C" sampleItem) "A").1 = true ∧
     (Get (Put ((Get (Put (Put (NewLRUCache 2) "A" sampleItem) "B" sampleItem) "A").2.2)
        "C" sampleItem) "C").1 = true)) :=
  ⟨by decide, C2_lru_order "x1" ["x2", "x3"] (fun _ => sampleItem) (by decide)⟩

/-- C3: when the cache misses and forwarding fails, the handler writes
exactly the fixed 502 response (with `Content-Length` equal to the byte
length of the fixed body, 57) and the cache gains no entry for the key. -/
theorem C3_forwarding_failure_502 (c : LRUCache) (req : Request) (writeOk : Bool)
    (hmiss : lookupKey (generateCacheKey req) c.items = none) :
    handleConnection c (some req) none writeOk = (badGatewayResponse, c) ∧
    badGatewayResponse
      = "HTTP/1.1 502 Bad Gateway\r\nContent-Type: text/plain\r\nContent-Length: 57\r\nConnection: close\r\n\r\nThe target server is unavailable. Please try again later." ∧
    badGatewayBody.utf8ByteSize = 57 ∧
    lookupKey (generateCacheKey req)
      (handleConnection c (some req) none writeOk).2.items = none := by
  refine ⟨handleConnection_forward_fail hmiss, by decide, by decide, ?_⟩
  rw [handleConnection_forward_fail hmiss]
  exact hmiss

/-- Witness for C3: an empty cache and a concrete request. -/
theorem C3_forwarding_failure_502_witness :
    lookupKey (generateCacheKey sampleRequest) (NewLRUCache 3).items = none ∧
    (handleConnection (NewLRUCache 3) (some sampleRequest) none true
        = (badGatewayResponse, NewLRUCache 3) ∧
     badGatewayResponse
       = "HTTP/1.1 502 Bad Gateway\r\nContent-Type: text/plain\r\nContent-Length: 57\r\nConnection: close\r\n\r\nThe target server is unavailable. Please try again later." ∧
     badGatewayBody.utf8ByteSize = 57 ∧
     lookupKey (generateCacheKey sampleRequest)
       (handleConnection (NewLRUCache 3) (some sampleRequest) none true).2.items = none) :=
  ⟨by decide, C3_forwarding_failure_502 (NewLRUCache 3) sampleRequest true (by decide)⟩

/-- C4: the bytes written to the origin on a miss follow exactly the
serialization the specification describes — request line, `Host` header,
one line per header with repeated values joined by a comma and space, a
blank line, and the fully read body. -/
theorem C4_forward_serialization (req : Request) :
    buildForwardRequest req = specForwardSerialization req := by
  unfold buildForwardRequest specForwardSerialization
  rw [headersString_eq_join]

/-- C5, as stated, is false: these two requests differ in path (and host)
yet produce the same cache key, because the plain `:` delimiter can be
absorbed by the neighbouring fields. -/
theorem C5_counterexample :
    collideRequest1.path ≠ collideRequest2.path ∧
    generateCacheKey collideRequest1 = generateCacheKey collideRequest2 := by
  constructor
  · decide
  · decide

/-- C5 (amended): the key depends only on (host, path, method) — equal
tuples give equal keys whatever the headers or query string — and, provided
neither path nor method contains the `:` delimiter character, requests that
differ in method or in path produce different keys. -/
theorem C5_key_derivation (r1 r2 : Request)
    (hp1 : ':' ∉ r1.path.data) (hp2 : ':' ∉ r2.path.data)
    (hm1 : ':' ∉ r1.method.data) (hm2 : ':' ∉ r2.method.data) :
    ((r1.host = r2.host ∧ r1.path = r2.path ∧ r1.method = r2.method) →
        generateCacheKey r1 = generateCacheKey r2) ∧
    ((r1.method ≠ r2.method ∨ r1.path ≠ r2.path) →
        generateCacheKey r1 ≠ generateCacheKey r2) := by
  constructor
  · rintro ⟨h1, h2, h3⟩
    unfold generateCacheKey
    rw [h1, h2, h3]
  · intro hne heq
    obtain ⟨hh, hp, hm⟩ := generateCacheKey_inj hp1 hp2 hm1 hm2 heq
    rcases hne with hne | hne
    · exact hne hm
    · exact hne hp

/-- Witness for C5 with two colon-free requests differing in path and in
method, with differing headers and query strings as well. -/
theorem C5_key_derivation_witness :
    (':' ∉ keyRequestA.path.data ∧ ':' ∉ keyRequestB.path.data ∧
     ':' ∉ keyRequestA.method.data ∧ ':' ∉ keyRequestB.method.data) ∧
    (((keyRequestA.host = keyRequestB.host ∧ keyRequestA.path = keyRequestB.path ∧
        keyRequestA.method = keyRequestB.method) →
          generateCacheKey keyRequestA = generateCacheKey keyRequestB) ∧
     ((keyRequestA.method ≠ keyRequestB.method ∨ keyRequestA.path ≠ keyRequestB.path) →
          generateCacheKey keyRequestA ≠ generateCacheKey keyRequestB)) :=
  ⟨⟨by decide, by decide, by decide, by decide⟩,
    C5_key_derivation keyRequestA keyRequestB
      (by decide) (by decide) (by decide) (by decide)⟩

/-- C6: starting from a freshly constructed cache, after any sequence of
Get and Put operations the recency list and the lookup index hold exactly
the same key set. -/
theorem C6_order_matches_index (cap : Int) (ops : List Op) (k : String) :
    k ∈ (applyOps (NewLRUCache cap) ops).order
      ↔ (lookupKey k (applyOps (NewLRUCache cap) ops).items).isSome :=
  mem_order_iff_lookup (inv_applyOps (inv_newLRUCache cap) ops)

/-- C7, as stated, is false when the capacity is not positive: with
capacity 0 the inserted entry is immediately evicted, so `Get K` after the
two Puts does not return `V2`. -/
theorem C7_counterexample :
    ¬ ((Get (Put (Put (NewLRUCache 0) "K" sampleItem) "K" sampleItem2) "K").2.1
        = some sampleItem2) := by
  decide

/-- C7 (amended): on any structurally sound cache whose capacity is at
least 1, `Put K V1; Put K V2; Get K` returns `V2` and the second Put leaves
`Size()` unchanged. -/
theorem C7_update_in_place (c : LRUCache) (K : String) (V1 V2 : ProxyItem)
    (hInv : Inv c) (hcap : 1 ≤ c.capacity) :
    (Get (Put (Put c K V1) K V2) K).1 = true ∧
    (Get (Put (Put c K V1) K V2) K).2.1 = some V2 ∧
    Size (Put (Put c K V1) K V2) = Size (Put c K V1) := by
  have h1 : lookupKey K (Put c K V1).items = some V1 :=
    lookupKey_put_self hInv hcap K V1
  have hIsSome : (lookupKey K (Put c K V1).items).isSome := by rw [h1]; rfl
  have h2 : lookupKey K (Put (Put c K V1) K V2).items = some V2 := by
    rw [Put_eq_update h1]
    exact lookupKey_updateValue_self hIsSome
  refine ⟨?_, ?_, ?_⟩
  · rw [Get_fst, h2]; rfl
  · rw [Get_val, h2]
  · rw [Put_eq_update h1]
    rfl

/-- Witness for C7 on a fresh cache of capacity 1. -/
theorem C7_update_in_place_witness :
    (Inv (NewLRUCache 1) ∧ 1 ≤ (NewLRUCache 1).capacity) ∧
    ((Get (Put (Put (NewLRUCache 1) "K" sampleItem) "K" sampleItem2) "K").1 = true ∧
     (Get (Put (Put (NewLRUCache 1) "K" sampleItem) "K" sampleItem2) "K").2.1
        = some sampleItem2 ∧
     Size (Put (Put (NewLRUCache 1) "K" sampleItem) "K" sampleItem2)
        = Size (Put (NewLRUCache 1) "K" sampleItem)) :=
  ⟨⟨by decide, by decide⟩,
    C7_update_in_place (NewLRUCache 1) "K" sampleItem sampleItem2 (by decide) (by decide)⟩

/-- C9: the accept loop returns with no error exactly when an accept
outcome was "listener closed" (`net.ErrClosed`); any other accept error is
logged and the loop keeps dispatching and accepting. -/
theorem C9_accept_loop_shutdown :
    (∀ evs, ((acceptLoop evs).returnedNil = true ↔ AcceptEvent.errClosed ∈ evs)) ∧
    (∀ i rest,
      (acceptLoop (AcceptEvent.errOther i :: rest)).logged
          = i :: (acceptLoop rest).logged ∧
      (acceptLoop (AcceptEvent.errOther i :: rest)).returnedNil
          = (acceptLoop rest).returnedNil ∧
      (acceptLoop (AcceptEvent.errOther i :: rest)).dispatched
          = (acceptLoop rest).dispatched) := by
  constructor
  · intro evs
    induction evs with
    | nil => simp [acceptLoop]
    | cons e rest ih =>
        cases e with
        | conn i => simpa [acceptLoop] using ih
        | errClosed => simp [acceptLoop]
        | errOther i => simpa [acceptLoop] using ih
  · intro i rest
    exact ⟨rfl, rfl, rfl⟩

/-- C10: if the cache missed, forwarding succeeded, but the client write
fails, the handler leaves the cache untouched (no entry for the key); the
`Put` happens exactly when the write succeeds. -/
theorem C10_put_only_after_write (c : LRUCache) (req : Request) (resp : Response)
    (hmiss : lookupKey (generateCacheKey req) c.items = none) :
    (handleConnection c (some req) (some resp) false).2 = c ∧
    lookupKey (generateCacheKey req)
      (handleConnection c (some req) (some resp) false).2.items = none ∧
    (handleConnection c (some req) (some resp) true).2
      = cacheResponse c (generateCacheKey req) (prepareResponse resp).1
          (prepareResponse resp).2.1 (prepareResponse resp).2.2 := by
  refine ⟨?_, ?_, ?_⟩
  · rw [handleConnection_forward_ok hmiss]
    rfl
  · rw [handleConnection_forward_ok hmiss]
    exact hmiss
  · rw [handleConnection_forward_ok hmiss]
    rfl

/-- Witness for C10: an empty cache, a concrete request and response. -/
theorem C10_put_only_after_write_witness :
    lookupKey (generateCacheKey sampleRequest) (NewLRUCache 3).items = none ∧
    ((handleConnection (NewLRUCache 3) (some sampleRequest) (some sampleResponse) false).2
        = NewLRUCache 3 ∧
     lookupKey (generateCacheKey sampleRequest)
       (handleConnection (NewLRUCache 3) (some sampleRequest)
          (some sampleResponse) false).2.items = none ∧
     (handleConnection (NewLRUCache 3) (some sampleRequest) (some sampleResponse) true).2
        = cacheResponse (NewLRUCache 3) (generateCacheKey sampleRequest)
            (prepareResponse sampleResponse).1 (prepareResponse sampleResponse).2.1
            (prepareResponse sampleResponse).2.2) :=
  ⟨by decide, C10_put_only_after_write (NewLRUCache 3) sampleRequest sampleResponse (by decide)⟩

end ProxySpec
